import Mathlib

/-!
Verification of the Aegis declarative policy-evaluation and compliance-scoring
engine specification against the repository sources.

The repository (aegis-kubernetes-framework) contains no standalone
implementation of the engine the specification describes: the policy-rule
logic exists only as simplified test-harness helpers embedded in
`tests/README.md` (`ValidateKyvernoPolicy`, `EvaluateKyvernoRule`,
`SubstituteVariables`, `EvaluatePolicyPrecedence`), and the compliance
scoring exists as the bash function `generate_summary` in
`scripts/validate-compliance.sh`.

This file therefore contains three developments:
* `Aegis`: the policy engine (Policy Document Model, Pattern Matcher,
  Variable Resolver, Rule Evaluator, Policy Aggregator) modelled from the
  specification, because the repository has no implementation of these
  components (only the simplified test harness exists under `tests/`).
* `Compliance`: a shallow embedding of the bash `generate_summary` function
  from `scripts/validate-compliance.sh`.
* `Harness`: a shallow embedding of the Go test-harness helper
  `EvaluateKyvernoRule` from `tests/README.md`, including its Go dynamic
  typing (`map[string]interface{}` values, comma-ok type assertions, and
  the panic of a plain type assertion on a non-matching value).
-/

namespace Aegis

/-- Modelled from the spec: the tagged-union document tree
(`Null | Bool | Number | String | Mapping | Sequence`) used for policies and
resources; the repository has no typed document model (resources appear only
as untyped Go maps in the test harness). -/
inductive Value where
  | null
  | bool (b : Bool)
  | num (n : Int)
  | str (s : String)
  | mapping (entries : List (String × Value))
  | sequence (items : List Value)
deriving Repr

/-- First-match lookup of a key in a mapping's entry list. -/
def lookupEntry : List (String × Value) → String → Option Value
  | [], _ => none
  | (k, v) :: rest, key => if k = key then some v else lookupEntry rest key

/-- Modelled from the spec: glob-style segment wildcarding for scalar string
pattern leaves (`*` = any run of characters); the repository has no glob
matcher (the test harness only does a substring check for "latest"). -/
def globMatch : List Char → List Char → Bool
  | [], [] => true
  | [], _ :: _ => false
  | '*' :: ps, [] => globMatch ps []
  | '*' :: ps, c :: cs => globMatch ps (c :: cs) || globMatch ('*' :: ps) cs
  | _ :: _, [] => false
  | p :: ps, c :: cs => p = c && globMatch ps cs
termination_by p s => (s.length, p.length)

/-- Glob matching on strings. -/
def globMatchStr (p s : String) : Bool :=
  globMatch p.data s.data

mutual

/-- Modelled from the spec: the Pattern Matcher
`matches(pattern, document) -> bool` (recursive structural comparison with
wildcards, subset mappings, single-element sequence patterns as universal
predicates, and type mismatch as non-match); the repository has no pattern
matcher implementation. -/
def patternMatches : Value → Value → Bool
  | .null, .null => true
  | .bool b, .bool c => b = c
  | .num n, .num m => n = m
  | .str p, .bool _ => p = "*"
  | .str p, .num _ => p = "*"
  | .str p, .str t => p = "*" || globMatch p.data t.data
  | .mapping pes, .mapping des => patternMatchesEntries pes des
  | .sequence [p], .sequence ds => patternMatchesAll p ds
  | .sequence ps, .sequence ds => patternMatchesSeq ps ds
  | _, _ => false
termination_by p _ => (sizeOf p, 0)

/-- Every key of the pattern mapping must exist in the document mapping and
recursively match; document keys absent from the pattern are ignored. -/
def patternMatchesEntries : List (String × Value) → List (String × Value) → Bool
  | [], _ => true
  | (k, pv) :: rest, des =>
    (match lookupEntry des k with
     | some dv => patternMatches pv dv
     | none => false) && patternMatchesEntries rest des
termination_by pes _ => (sizeOf pes, 0)

/-- A single-element sequence pattern acts as a universal predicate over the
document sequence. -/
def patternMatchesAll : Value → List Value → Bool
  | _, [] => true
  | p, d :: ds => patternMatches p d && patternMatchesAll p ds
termination_by p ds => (sizeOf p, 1 + sizeOf ds)

/-- Element-wise matching of equal-length sequences. -/
def patternMatchesSeq : List Value → List Value → Bool
  | [], [] => true
  | p :: ps, d :: ds => patternMatches p d && patternMatchesSeq ps ds
  | _, _ => false
termination_by ps _ => (sizeOf ps, 0)

end

/-- Shape classification of a document value, used to state that the Pattern
Matcher treats a shape mismatch as a non-match. -/
inductive ShapeClass where
  | scalar
  | mapShape
  | seqShape
deriving DecidableEq, Repr

/-- The shape of a value: mapping, sequence, or scalar (null and all leaves). -/
def shapeClass : Value → ShapeClass
  | .mapping _ => .mapShape
  | .sequence _ => .seqShape
  | _ => .scalar

/-- Modelled from the spec: one segment of a dot/bracket path expression such
as `request.object.spec.containers[0].image`; the repository has no path
resolver (the test harness hard-codes two specific paths). -/
inductive Seg where
  | key (name : String)
  | idx (i : Nat)
deriving DecidableEq, Repr

/-- Modelled from the spec: `ResolutionError{path}` carrying the path whose
resolution failed. -/
structure ResolutionError where
  path : List Seg
deriving DecidableEq, Repr

/-- One resolution step: a key selects into a mapping, an index selects into a
sequence; anything else (missing key, out-of-bounds index, or a segment
applied to a scalar) does not resolve. -/
def segStep : Seg → Value → Option Value
  | .key k, .mapping entries => lookupEntry entries k
  | .idx i, .sequence items => items.get? i
  | _, _ => none

/-- Walk the whole path through the context tree, failing as soon as one
segment does not resolve. -/
def resolveAux : List Seg → Value → Option Value
  | [], v => some v
  | s :: rest, v =>
    match segStep s v with
    | some w => resolveAux rest w
    | none => none

/-- Modelled from the spec: the Variable Resolver
`resolve(expression, context) -> Value | ResolutionError`; the repository has
no resolver implementation (only `SubstituteVariables` in the test harness,
which handles exactly two hard-coded template strings). -/
def resolve (path : List Seg) (ctx : Value) : Except ResolutionError Value :=
  match resolveAux path ctx with
  | some v => .ok v
  | none => .error ⟨path⟩

/-- Modelled from the spec: a validation pattern before variable substitution,
whose scalar leaves may be literal values or variable expressions to be
resolved against the evaluation context; the repository has no such
structure. -/
inductive PatternExpr where
  | leaf (v : Value)
  | var (path : List Seg)
  | mapping (entries : List (String × PatternExpr))
  | sequence (items : List PatternExpr)
deriving Repr

mutual

/-- Modelled from the spec: pre-resolution of all variable expressions inside
a ValidationSpec, turning it into a literal pattern; a resolution failure
anywhere fails the whole substitution. -/
def substitute : PatternExpr → Value → Except ResolutionError Value
  | .leaf v, _ => .ok v
  | .var p, ctx => resolve p ctx
  | .mapping entries, ctx =>
    match substituteEntries entries ctx with
    | .ok es => .ok (.mapping es)
    | .error e => .error e
  | .sequence items, ctx =>
    match substituteList items ctx with
    | .ok vs => .ok (.sequence vs)
    | .error e => .error e
termination_by p _ => sizeOf p

/-- Substitute variables in each entry of a mapping pattern. -/
def substituteEntries :
    List (String × PatternExpr) → Value → Except ResolutionError (List (String × Value))
  | [], _ => .ok []
  | (k, pe) :: rest, ctx =>
    match substitute pe ctx with
    | .ok v =>
      match substituteEntries rest ctx with
      | .ok es => .ok ((k, v) :: es)
      | .error e => .error e
    | .error e => .error e
termination_by entries _ => sizeOf entries

/-- Substitute variables in each item of a sequence pattern. -/
def substituteList : List PatternExpr → Value → Except ResolutionError (List Value)
  | [], _ => .ok []
  | pe :: rest, ctx =>
    match substitute pe ctx with
    | .ok v =>
      match substituteList rest ctx with
      | .ok vs => .ok (v :: vs)
      | .error e => .error e
    | .error e => .error e
termination_by items _ => sizeOf items

end

/-- Modelled from the spec: enforcement mode of a policy
(`enforce` | `audit`); the harness stores it only as the untyped string
`validationFailureAction`. -/
inductive EnforcementMode where
  | enforce
  | audit
deriving DecidableEq, Repr

/-- Modelled from the spec: the outcome of one rule on one resource. -/
inductive Outcome where
  | allow
  | deny
  | notApplicable
deriving DecidableEq, Repr

/-- Modelled from the spec: `RuleResult` (rule name, matched flag, outcome,
reason string); the harness returns only a bare boolean. -/
structure RuleResult where
  ruleName : String
  matched : Bool
  outcome : Outcome
  reason : String
deriving DecidableEq, Repr

/-- Modelled from the spec: `MatchSelector` — the set of resource kinds a
rule applies to, with optional namespace and label predicates; the harness
declares a match structure but never consults it during evaluation. -/
structure MatchSelector where
  kinds : List String
  namespaceConstraint : Option String
  labelConstraints : List (String × String)
deriving Repr

/-- Modelled from the spec: `ImageVerificationSpec` — an image-reference glob
plus a verification key; the harness hard-codes a substring check instead. -/
structure ImageVerificationSpec where
  glob : String
  key : String
deriving DecidableEq, Repr

/-- Modelled from the spec: the tagged rule body
`RuleBody = Validation(Pattern) | ImageVerification(Spec)`, making "exactly
one of the two specs" a type-level invariant as §9 of the spec directs. -/
inductive RuleBody where
  | validation (pattern : PatternExpr)
  | imageVerification (spec : ImageVerificationSpec)
deriving Repr

/-- Modelled from the spec: a policy rule (name, match selector, body). -/
structure Rule where
  name : String
  selector : MatchSelector
  body : RuleBody
deriving Repr

/-- Modelled from the spec: `EvaluationContext` — the resource under test
plus request metadata (operation, timestamp, caller identity). -/
structure EvaluationContext where
  resource : Value
  operation : String
  timestamp : String
  caller : String
deriving Repr

/-- The context tree the Variable Resolver walks: the resource is supplied as
`request.object`, with the request metadata beside it. -/
def EvaluationContext.tree (ctx : EvaluationContext) : Value :=
  .mapping [("request", .mapping
    [("object", ctx.resource),
     ("operation", .str ctx.operation),
     ("timestamp", .str ctx.timestamp),
     ("userInfo", .str ctx.caller)])]

/-- The kind of a resource document, when present as a string field. -/
def resourceKind (r : Value) : Option String :=
  match r with
  | .mapping entries =>
    match lookupEntry entries "kind" with
    | some (.str k) => some k
    | _ => none
  | _ => none

/-- The namespace of a resource document, when present. -/
def resourceNamespace (r : Value) : Option String :=
  match resolveAux [.key "metadata", .key "namespace"] r with
  | some (.str s) => some s
  | _ => none

/-- The value of one label of a resource document, when present. -/
def resourceLabel (r : Value) (label : String) : Option String :=
  match resolveAux [.key "metadata", .key "labels", .key label] r with
  | some (.str s) => some s
  | _ => none

/-- Modelled from the spec: a resource matches a MatchSelector if its kind is
in the set and all (optional) namespace/label predicates hold. -/
def selectorMatches (sel : MatchSelector) (r : Value) : Bool :=
  (match resourceKind r with
   | some k => sel.kinds.contains k
   | none => false)
  && (match sel.namespaceConstraint with
      | none => true
      | some ns => resourceNamespace r = some ns)
  && sel.labelConstraints.all (fun kv => resourceLabel r kv.1 = some kv.2)

/-- Renders one path segment for the `variable-unresolved:<path>` reason. -/
def segString : Seg → String
  | .key k => k
  | .idx i => "[" ++ toString i ++ "]"

/-- Renders a path for the `variable-unresolved:<path>` reason. -/
def pathString (p : List Seg) : String :=
  String.intercalate "." (p.map segString)

/-- The container image references of a resource: the string `image` fields
of the mappings in its `spec.containers` sequence. -/
def containerImages (r : Value) : List String :=
  match resolveAux [.key "spec", .key "containers"] r with
  | some (.sequence cs) =>
    cs.filterMap (fun c =>
      match c with
      | .mapping entries =>
        match lookupEntry entries "image" with
        | some (.str s) => some s
        | _ => none
      | _ => none)
  | _ => []

/-- Modelled from the spec: the Rule Evaluator
`evaluate(rule, context) -> RuleResult` (§4.4): apply the MatchSelector;
then run exactly one of validation (variable substitution + pattern match)
or image verification through the injected capability `verify`; the
repository has no such evaluator (the harness's `EvaluateKyvernoRule`
ignores the selector and the pattern). A substitution failure denies under
`enforce` mode and is `not-applicable` under `audit` mode. -/
def evaluate (mode : EnforcementMode) (rule : Rule) (ctx : EvaluationContext)
    (verify : String → String → Bool) : RuleResult :=
  if selectorMatches rule.selector ctx.resource then
    match rule.body with
    | .validation pat =>
      match substitute pat ctx.tree with
      | .error e =>
        match mode with
        | .enforce => ⟨rule.name, true, .deny, "variable-unresolved:" ++ pathString e.path⟩
        | .audit => ⟨rule.name, true, .notApplicable, "variable-unresolved:" ++ pathString e.path⟩
      | .ok litPat =>
        if patternMatches litPat ctx.resource then ⟨rule.name, true, .allow, "pattern-match"⟩
        else ⟨rule.name, true, .deny, "pattern-violation"⟩
    | .imageVerification spec =>
      match ((containerImages ctx.resource).filter
          (fun ref => globMatchStr spec.glob ref)).find?
          (fun ref => !(verify ref spec.key)) with
      | some ref => ⟨rule.name, true, .deny, "unverified-image:" ++ ref⟩
      | none => ⟨rule.name, true, .allow, "images-verified"⟩
  else ⟨rule.name, false, .notApplicable, "no-match"⟩

/-- Modelled from the spec: `PolicyDocument` — name, enforcement mode, and an
ordered sequence of rules. -/
structure PolicyDocument where
  name : String
  mode : EnforcementMode
  rules : List Rule
deriving Repr

/-- Modelled from the spec: `PolicyResult` — policy name, aggregate outcome,
and the ordered list of RuleResults that contributed to a denial; the
harness's `PolicyResult` carries only a boolean and one reason string. -/
structure PolicyResult where
  policyName : String
  outcome : Outcome
  ruleResults : List RuleResult
deriving DecidableEq, Repr

/-- Modelled from the spec: per-policy aggregation (§4.5) — evaluate every
rule in declaration order and collect all deny results without
short-circuiting. -/
def evaluatePolicy (p : PolicyDocument) (ctx : EvaluationContext)
    (verify : String → String → Bool) : PolicyResult :=
  let results := p.rules.map (fun r => evaluate p.mode r ctx verify)
  let denies := results.filter (fun rr => decide (rr.outcome = .deny))
  ⟨p.name, if denies.isEmpty then .allow else .deny, denies⟩

/-- The consolidated admission decision together with every policy's result. -/
structure AggregateResult where
  allowed : Bool
  results : List PolicyResult
deriving DecidableEq, Repr

/-- Modelled from the spec: the Policy Aggregator
`evaluateAll(policies, context, verificationCapability)` (§4.5): all policy
results are returned, and the resource is allowed iff no `enforce`-mode
policy produced a deny; the repository has no aggregator (the harness's
`EvaluatePolicyPrecedence` stops at the first failing rule). -/
def evaluateAll (policies : List PolicyDocument) (ctx : EvaluationContext)
    (verify : String → String → Bool) : AggregateResult :=
  ⟨!(policies.any (fun p =>
      decide (p.mode = .enforce) && decide ((evaluatePolicy p ctx verify).outcome = .deny))),
   policies.map (fun p => evaluatePolicy p ctx verify)⟩

/-- Modelled from the spec: the raw policy source shape (§6) — top-level
`name`, `enforcementMode`, `rules[]` — before validation by `load`. -/
structure PolicySource where
  name : Option String
  enforcementMode : String
  rules : Option (List Rule)
deriving Repr

/-- Modelled from the spec: the kinds of `ParseError` the loader can raise. -/
inductive ParseErrorKind where
  | MissingField
  | InvalidEnforcementMode
  | EmptyRuleSet
deriving DecidableEq, Repr

/-- Modelled from the spec: `ParseError{kind, field}`. -/
structure ParseError where
  kind : ParseErrorKind
  field : String
deriving DecidableEq, Repr

/-- The two recognized enforcement-mode strings. -/
def parseMode (s : String) : Option EnforcementMode :=
  if s = "enforce" then some .enforce
  else if s = "audit" then some .audit
  else none

/-- Modelled from the spec: the Policy Document Model loader
`load(source) -> PolicyDocument | ParseError` (§4.1); the repository has no
loader with this contract (the harness's `ValidateKyvernoPolicy` checks only
`apiVersion` and `kind`). -/
def load (src : PolicySource) : Except ParseError PolicyDocument :=
  match src.name with
  | none => .error ⟨.MissingField, "name"⟩
  | some n =>
    match src.rules with
    | none => .error ⟨.MissingField, "rules"⟩
    | some rs =>
      match parseMode src.enforcementMode with
      | none => .error ⟨.InvalidEnforcementMode, "enforcementMode"⟩
      | some m =>
        if rs.isEmpty then .error ⟨.EmptyRuleSet, "rules"⟩
        else .ok ⟨n, m, rs⟩

end Aegis

namespace Compliance

/-- The status strings written by `add_check_result` in
`scripts/validate-compliance.sh` (PASS, FAIL, WARN, INFO all occur). -/
inductive CheckStatus where
  | PASS
  | FAIL
  | WARN
  | INFO
deriving DecidableEq, Repr

/-- Number of checks in the report with the given status (the script counts
them with `jq 'select(.status == ...)' | wc -l`). -/
def countStatus (s : CheckStatus) (checks : List CheckStatus) : Nat :=
  (checks.filter (fun c => decide (c = s))).length

/-- The `summary` object written by `generate_summary`
(`compliance_score, total_checks, passed, failed, warnings`). -/
structure ComplianceSummary where
  compliance_score : Nat
  total_checks : Nat
  passed : Nat
  failed : Nat
  warnings : Nat
deriving DecidableEq, Repr

/-- The failure mode of `generate_summary`: with zero recorded checks the
bash arithmetic `$(( (passed_checks * 100) / total_checks ))` aborts the
script with a division-by-zero error (the script runs under `set -e`, and a
bash expansion error is fatal in any case), so no summary is produced. The
spec's error taxonomy names this condition `EmptyCheckSet`. -/
inductive ScanError where
  | EmptyCheckSet
deriving DecidableEq, Repr

/-- Shallow embedding of `generate_summary` from
`scripts/validate-compliance.sh` (lines 221-249): given the statuses of the
recorded compliance checks, it computes
`compliance_score = (passed_checks * 100) / total_checks` with bash integer
(truncating) division, and the counts of PASS/FAIL/WARN checks; with zero
checks the arithmetic aborts (modelled as the error branch). -/
def generate_summary (checks : List CheckStatus) : Except ScanError ComplianceSummary :=
  let total_checks := checks.length
  let passed_checks := countStatus .PASS checks
  let failed_checks := countStatus .FAIL checks
  let warn_checks := countStatus .WARN checks
  if total_checks = 0 then .error .EmptyCheckSet
  else .ok ⟨(passed_checks * 100) / total_checks, total_checks,
            passed_checks, failed_checks, warn_checks⟩

/-- Modelled from the spec: the score formula the spec asserts,
`round(100 * passCount / totalCount)` to the nearest integer (stated here
with half rounding up; the spec fixes no tie-breaking), kept separate from
the embedding of the script so the two can be compared. -/
def roundNearestPercent (pass total : Nat) : Nat :=
  (200 * pass + total) / (2 * total)

end Compliance

namespace Harness

/-- A Go `interface{}` value as used by the test-harness helpers in
`tests/README.md`: the dynamic types that occur there are `nil`, `bool`,
`string`, `int`, `map[string]interface{}`, `[]map[string]interface{}` and
`[]interface{}`. Type assertions discriminate on the exact dynamic type. -/
inductive GoVal where
  | goNil
  | goBool (b : Bool)
  | goString (s : String)
  | goInt (n : Int)
  | goMap (entries : List (String × GoVal))
  | goMapSlice (items : List (List (String × GoVal)))
  | goSlice (items : List GoVal)
deriving Repr

/-- Go map indexing `m[k]`: the zero value `nil` when the key is absent. -/
def goIndex (m : List (String × GoVal)) (k : String) : GoVal :=
  match m with
  | [] => .goNil
  | (k₀, v) :: rest => if k₀ = k then v else goIndex rest k

/-- The comma-ok type assertion `v.(map[string]interface{})`. -/
def asMap : GoVal → Option (List (String × GoVal))
  | .goMap entries => some entries
  | _ => none

/-- The comma-ok type assertion `v.([]map[string]interface{})`. -/
def asMapSlice : GoVal → Option (List (List (String × GoVal)))
  | .goMapSlice items => some items
  | _ => none

/-- The comma-ok type assertion `v.(string)`. -/
def asString : GoVal → Option String
  | .goString s => some s
  | _ => none

/-- The comma-ok type assertion `v.(bool)`. -/
def asBool : GoVal → Option Bool
  | .goBool b => some b
  | _ => none

/-- Go `strings.Contains(s, sub)` for the non-empty substring used by the
harness ("latest"). -/
def strContains (s sub : String) : Bool :=
  2 ≤ (s.splitOn sub).length

/-- `ImageVerification` from `tests/README.md` (fields `image`, `key`). -/
structure ImageVerification where
  image : String
  key : String
deriving DecidableEq, Repr

/-- `Validation` from `tests/README.md`: the untyped
`Pattern map[string]interface{}` field. -/
structure Validation where
  pattern : List (String × GoVal)
deriving Repr

/-- `ResourceFilter` from `tests/README.md`. -/
structure ResourceFilter where
  kinds : List String
deriving DecidableEq, Repr

/-- `ResourceMatch` from `tests/README.md`. -/
structure ResourceMatch where
  resources : ResourceFilter
deriving DecidableEq, Repr

/-- `KyvernoRule` from `tests/README.md`: `VerifyImages` is a nilable slice
(`none` models the nil slice of the `omitempty` field) and `Validate` is a
nilable pointer. -/
structure KyvernoRule where
  name : String
  matchRes : ResourceMatch
  verifyImages : Option (List ImageVerification)
  validate : Option Validation
deriving Repr

/-- The loop body of the harness's VerifyImages branch: for each container
mapping, if its `image` field asserts to a string containing "latest",
return false; otherwise keep scanning; return true after the loop. -/
def checkContainersForLatest : List (List (String × GoVal)) → Bool
  | [] => true
  | c :: rest =>
    match asString (goIndex c "image") with
    | some img => if strContains img "latest" then false else checkContainersForLatest rest
    | none => checkContainersForLatest rest

/-- Shallow embedding of the Go helper `EvaluateKyvernoRule` from
`tests/README.md` (lines 614-643). `some b` models `return b, nil` (the
function never returns a non-nil error); `none` models a panic: in the
VerifyImages branch the chained expression
`input["spec"].(map[string]interface{})["containers"].([]map[string]interface{})`
applies a plain (non comma-ok) type assertion to `input["spec"]`, which
panics whenever that value is not a `map[string]interface{}` (in particular
when the key is absent and the value is `nil`). -/
def EvaluateKyvernoRule (rule : KyvernoRule) (input : List (String × GoVal)) :
    Option Bool :=
  match rule.verifyImages with
  | some _ =>
    match asMap (goIndex input "spec") with
    | none => none
    | some specMap =>
      match asMapSlice (goIndex specMap "containers") with
      | some containers => some (checkContainersForLatest containers)
      | none => some true
  | none =>
    match rule.validate with
    | some _ =>
      match asMap (goIndex input "spec") with
      | some specMap =>
        match asMap (goIndex specMap "securityContext") with
        | some sc =>
          match asBool (goIndex sc "runAsNonRoot") with
          | some b => some b
          | none => some true
        | none => some true
      | none => some true
    | none => some true

/-- The `spec.securityContext.runAsNonRoot` boolean of an input document,
extracted with the same comma-ok assertions the harness uses; stated
separately from `EvaluateKyvernoRule` so the claim about the Validate branch
can be expressed against it. -/
def runAsNonRootOf (input : List (String × GoVal)) : Option Bool :=
  match asMap (goIndex input "spec") with
  | some specMap =>
    match asMap (goIndex specMap "securityContext") with
    | some sc => asBool (goIndex sc "runAsNonRoot")
    | none => none
  | none => none

end Harness

namespace Fixtures

/-- A selector matching Pod resources with no extra predicates. -/
def podSelector : Aegis.MatchSelector := ⟨["Pod"], none, []⟩

/-- A rule whose literal validation pattern `true` can never match a mapping
resource (shape mismatch), so it denies every mapping resource. -/
def denyRule1 : Aegis.Rule := ⟨"d1", podSelector, .validation (.leaf (.bool true))⟩

/-- A second always-denying rule, distinct from `denyRule1`. -/
def denyRule2 : Aegis.Rule := ⟨"d2", podSelector, .validation (.leaf (.num 0))⟩

/-- A minimal Pod resource document. -/
def podResource : Aegis.Value := .mapping [("kind", .str "Pod")]

/-- An evaluation context for `podResource`. -/
def podCtx : Aegis.EvaluationContext := ⟨podResource, "CREATE", "t0", "tester"⟩

/-- A minimal Service resource document (kind not matched by `podSelector`). -/
def svcResource : Aegis.Value := .mapping [("kind", .str "Service")]

/-- An evaluation context for `svcResource`. -/
def svcCtx : Aegis.EvaluationContext := ⟨svcResource, "CREATE", "t0", "tester"⟩

/-- An image-verification rule over all images. -/
def ivRule : Aegis.Rule := ⟨"iv", podSelector, .imageVerification ⟨"*", "cosign-key"⟩⟩

/-- A Pod resource with one container image reference. -/
def podImageResource : Aegis.Value :=
  .mapping [("kind", .str "Pod"),
            ("spec", .mapping [("containers", .sequence
              [.mapping [("image", .str "app:1")]])])]

/-- An evaluation context for `podImageResource`. -/
def podImageCtx : Aegis.EvaluationContext := ⟨podImageResource, "CREATE", "t0", "tester"⟩

/-- A policy with two rules that both deny every mapping resource. -/
def twoDenyPolicy : Aegis.PolicyDocument := ⟨"two-deny", .enforce, [denyRule1, denyRule2]⟩

/-- An audit-mode policy containing an always-denying rule. -/
def auditPolicy : Aegis.PolicyDocument := ⟨"audit-pol", .audit, [denyRule1]⟩

/-- An enforce-mode policy containing an always-denying rule. -/
def enforcePolicy : Aegis.PolicyDocument := ⟨"enforce-pol", .enforce, [denyRule1]⟩

/-- A verification capability accepting every image. -/
def vTrue : String → String → Bool := fun _ _ => true

/-- A harness rule with a Validate pattern (VerifyImages nil). -/
def hRuleV1 : Harness.KyvernoRule :=
  ⟨"r1", ⟨⟨["Pod"]⟩⟩, none, some ⟨[("a", .goString "x")]⟩⟩

/-- A harness rule with a different Validate pattern (VerifyImages nil). -/
def hRuleV2 : Harness.KyvernoRule :=
  ⟨"r2", ⟨⟨["Pod"]⟩⟩, none, some ⟨[("b", .goBool true)]⟩⟩

/-- A harness rule with a non-nil VerifyImages slice, as in the README's
"Image signature rule" test cases. -/
def hRuleVI : Harness.KyvernoRule :=
  ⟨"verify-signature", ⟨⟨["Pod"]⟩⟩, some [⟨"*", "test-public-key"⟩], none⟩

end Fixtures

/-- C9: the compliance summary over an empty check set fails with the
EmptyCheckSet error (the bash arithmetic `(passed * 100) / total` aborts on
the zero divisor); it never produces a summary, in particular none silently
scored 0% or 100%. -/
theorem empty_check_set_fails :
    Compliance.generate_summary [] = .error .EmptyCheckSet ∧
    (Compliance.generate_summary []).toOption = none :=
  ⟨rfl, rfl⟩

/-- C8 counterexample: the claim says the score is `round(100 * pass / total)`
to the nearest integer, but on checks `[PASS, PASS, FAIL]` the script's
truncating integer division gives 66 while nearest-integer rounding of
200/3 gives 67. -/
theorem score_rounding_counterexample :
    Compliance.generate_summary [.PASS, .PASS, .FAIL] = .ok ⟨66, 3, 2, 1, 0⟩ ∧
    Compliance.roundNearestPercent 2 3 = 67 ∧ (66 : Nat) ≠ 67 :=
  ⟨rfl, rfl, by decide⟩

/-- C8 (amended): for every non-empty check list the compliance score equals
`(passCount * 100) / totalCount` with truncating integer division, WARN and
INFO counting toward the total but not the passes; the scan
`[PASS, PASS, FAIL, WARN]` yields summary
`{score: 50, total: 4, passed: 2, failed: 1, warnings: 1}`. -/
theorem score_truncates (checks : List Compliance.CheckStatus) (h : checks ≠ []) :
    Compliance.generate_summary checks =
      .ok ⟨(Compliance.countStatus .PASS checks * 100) / checks.length,
           checks.length,
           Compliance.countStatus .PASS checks,
           Compliance.countStatus .FAIL checks,
           Compliance.countStatus .WARN checks⟩ ∧
    Compliance.generate_summary [.PASS, .PASS, .FAIL, .WARN] = .ok ⟨50, 4, 2, 1, 1⟩ := by
  refine ⟨?_, rfl⟩
  have hlen : checks.length ≠ 0 := by
    simpa [List.length_eq_zero] using h
  simp [Compliance.generate_summary, hlen]

/-- Witness for `score_truncates` at the concrete check list `[PASS]`. -/
theorem score_truncates_witness :
    Compliance.generate_summary [.PASS] = .ok ⟨100, 1, 1, 0, 0⟩ :=
  (score_truncates [.PASS] (by decide)).1

/-- C10: in the harness's `EvaluateKyvernoRule`, once `VerifyImages` is nil
and `Validate` is non-nil, the verdict is independent of the contents of the
validation pattern; it equals the input's `spec.securityContext.runAsNonRoot`
boolean when present, and is `true` for every input lacking that boolean. -/
theorem validate_branch_ignores_pattern
    (r₁ r₂ : Harness.KyvernoRule) (input : List (String × Harness.GoVal))
    (h₁v : r₁.verifyImages = none) (h₂v : r₂.verifyImages = none)
    (h₁ : r₁.validate.isSome = true) (h₂ : r₂.validate.isSome = true) :
    Harness.EvaluateKyvernoRule r₁ input = Harness.EvaluateKyvernoRule r₂ input ∧
    (∀ b, Harness.runAsNonRootOf input = some b →
      Harness.EvaluateKyvernoRule r₁ input = some b) ∧
    (Harness.runAsNonRootOf input = none →
      Harness.EvaluateKyvernoRule r₁ input = some true) := by
  obtain ⟨v₁, hv₁⟩ := Option.isSome_iff_exists.mp h₁
  obtain ⟨v₂, hv₂⟩ := Option.isSome_iff_exists.mp h₂
  unfold Harness.EvaluateKyvernoRule Harness.runAsNonRootOf
  rw [h₁v, h₂v, hv₁, hv₂]
  cases hs : Harness.asMap (Harness.goIndex input "spec") with
  | none => exact ⟨rfl, by simp [hs], by simp [hs]⟩
  | some specMap =>
    cases hc : Harness.asMap (Harness.goIndex specMap "securityContext") with
    | none => exact ⟨rfl, by simp [hc], by simp [hc]⟩
    | some sc =>
      cases hb : Harness.asBool (Harness.goIndex sc "runAsNonRoot") with
      | none => exact ⟨rfl, by simp [hc, hb], by simp [hc, hb]⟩
      | some b => exact ⟨rfl, by simp [hc, hb], by simp [hc, hb]⟩

/-- Witness for `validate_branch_ignores_pattern`: two rules with different
patterns agree on the empty input, where the verdict is `true`. -/
theorem validate_branch_ignores_pattern_witness :
    Harness.EvaluateKyvernoRule Fixtures.hRuleV1 [] =
      Harness.EvaluateKyvernoRule Fixtures.hRuleV2 [] ∧
    Harness.EvaluateKyvernoRule Fixtures.hRuleV1 [] = some true :=
  ⟨(validate_branch_ignores_pattern Fixtures.hRuleV1 Fixtures.hRuleV2 [] rfl rfl rfl rfl).1,
   (validate_branch_ignores_pattern Fixtures.hRuleV1 Fixtures.hRuleV2 [] rfl rfl rfl rfl).2.2 rfl⟩

/-- C3 (code bug): the harness's `EvaluateKyvernoRule` is not total — in the
VerifyImages branch the chained plain type assertion on `input["spec"]`
panics (modelled as `none`) whenever the input has no `spec` mapping, while
the spec requires evaluation never to raise on such documents. -/
theorem evaluateKyvernoRule_panics_without_spec
    (rule : Harness.KyvernoRule) (input : List (String × Harness.GoVal))
    (hv : rule.verifyImages.isSome = true)
    (hs : Harness.asMap (Harness.goIndex input "spec") = none) :
    Harness.EvaluateKyvernoRule rule input = none := by
  obtain ⟨vi, hvi⟩ := Option.isSome_iff_exists.mp hv
  unfold Harness.EvaluateKyvernoRule
  rw [hvi, hs]

/-- Witness for `evaluateKyvernoRule_panics_without_spec`: the README's own
"Image signature rule" shape evaluated on an input without a `spec` key. -/
theorem evaluateKyvernoRule_panics_without_spec_witness :
    Harness.EvaluateKyvernoRule Fixtures.hRuleVI [("kind", .goString "Pod")] = none :=
  evaluateKyvernoRule_panics_without_spec Fixtures.hRuleVI [("kind", .goString "Pod")] rfl rfl

/-- C7: the policy loader fails with `MissingField` when `name` or `rules`
is absent, with `InvalidEnforcementMode` when the mode is neither `enforce`
nor `audit`, with `EmptyRuleSet` when the rule set is empty, and succeeds
exactly when all three conditions hold. -/
theorem load_parse_errors (src : Aegis.PolicySource) :
    (src.name = none → Aegis.load src = .error ⟨.MissingField, "name"⟩) ∧
    (src.name.isSome = true → src.rules = none →
      Aegis.load src = .error ⟨.MissingField, "rules"⟩) ∧
    (src.name.isSome = true → src.rules.isSome = true →
      src.enforcementMode ≠ "enforce" → src.enforcementMode ≠ "audit" →
      Aegis.load src = .error ⟨.InvalidEnforcementMode, "enforcementMode"⟩) ∧
    (src.name.isSome = true →
      (src.enforcementMode = "enforce" ∨ src.enforcementMode = "audit") →
      src.rules = some [] → Aegis.load src = .error ⟨.EmptyRuleSet, "rules"⟩) ∧
    ((∃ d, Aegis.load src = .ok d) ↔
      (src.name.isSome = true ∧
       (∃ rs, src.rules = some rs ∧ rs ≠ []) ∧
       (src.enforcementMode = "enforce" ∨ src.enforcementMode = "audit"))) := by
  obtain ⟨nm, md, rl⟩ := src
  refine ⟨?_, ?_, ?_, ?_, ?_⟩
  · intro h
    subst h
    rfl
  · intro hn hr
    obtain ⟨n, hn⟩ := Option.isSome_iff_exists.mp hn
    subst hn hr
    rfl
  · intro hn hr h₁ h₂
    obtain ⟨n, hn⟩ := Option.isSome_iff_exists.mp hn
    obtain ⟨rs, hr⟩ := Option.isSome_iff_exists.mp hr
    subst hn hr
    simp [Aegis.load, Aegis.parseMode, h₁, h₂]
  · intro hn hm hr
    obtain ⟨n, hn⟩ := Option.isSome_iff_exists.mp hn
    subst hn hr
    rcases hm with hm | hm <;> subst hm <;> rfl
  · constructor
    · rintro ⟨d, hd⟩
      cases nm with
      | none => simp [Aegis.load] at hd
      | some n =>
        cases rl with
        | none => simp [Aegis.load] at hd
        | some rs =>
          by_cases h₁ : md = "enforce"
          · subst h₁
            cases rs with
            | nil => simp [Aegis.load, Aegis.parseMode] at hd
            | cons r rest =>
              exact ⟨rfl, ⟨r :: rest, rfl, by simp⟩, Or.inl rfl⟩
          · by_cases h₂ : md = "audit"
            · subst h₂
              cases rs with
              | nil => simp [Aegis.load, Aegis.parseMode] at hd
              | cons r rest =>
                exact ⟨rfl, ⟨r :: rest, rfl, by simp⟩, Or.inr rfl⟩
            · simp [Aegis.load, Aegis.parseMode, h₁, h₂] at hd
    · rintro ⟨hn, ⟨rs, hr, hrs⟩, hm⟩
      obtain ⟨n, hn⟩ := Option.isSome_iff_exists.mp hn
      subst hn hr
      cases rs with
      | nil => exact absurd rfl hrs
      | cons r rest =>
        rcases hm with hm | hm <;> subst hm
        · exact ⟨⟨n, .enforce, r :: rest⟩, rfl⟩
        · exact ⟨⟨n, .audit, r :: rest⟩, rfl⟩

/-- Witness for `load_parse_errors`: a source with a name and rules but an
unrecognized enforcement mode fails with `InvalidEnforcementMode`. -/
theorem load_parse_errors_witness :
    Aegis.load ⟨some "p", "deny", some []⟩ =
      .error ⟨.InvalidEnforcementMode, "enforcementMode"⟩ :=
  (load_parse_errors ⟨some "p", "deny", some []⟩).2.2.1 rfl rfl (by decide) (by decide)

/-- Evaluating `denyRule1` in enforce mode on the Pod context: the literal
pattern `true` mismatches the mapping resource, so the rule denies. -/
theorem eval_denyRule1_enforce :
    Aegis.evaluate .enforce Fixtures.denyRule1 Fixtures.podCtx Fixtures.vTrue =
      ⟨"d1", true, .deny, "pattern-violation"⟩ := by
  simp [Aegis.evaluate, Fixtures.denyRule1, Fixtures.podCtx, Fixtures.podSelector,
    Fixtures.podResource, Fixtures.vTrue, Aegis.selectorMatches, Aegis.resourceKind,
    Aegis.lookupEntry, Aegis.substitute, Aegis.patternMatches, Aegis.EvaluationContext.tree]

/-- Evaluating `denyRule1` in audit mode on the Pod context also denies (the
mode only changes the handling of substitution failures). -/
theorem eval_denyRule1_audit :
    Aegis.evaluate .audit Fixtures.denyRule1 Fixtures.podCtx Fixtures.vTrue =
      ⟨"d1", true, .deny, "pattern-violation"⟩ := by
  simp [Aegis.evaluate, Fixtures.denyRule1, Fixtures.podCtx, Fixtures.podSelector,
    Fixtures.podResource, Fixtures.vTrue, Aegis.selectorMatches, Aegis.resourceKind,
    Aegis.lookupEntry, Aegis.substitute, Aegis.patternMatches, Aegis.EvaluationContext.tree]

/-- Evaluating `denyRule2` in enforce mode on the Pod context denies. -/
theorem eval_denyRule2_enforce :
    Aegis.evaluate .enforce Fixtures.denyRule2 Fixtures.podCtx Fixtures.vTrue =
      ⟨"d2", true, .deny, "pattern-violation"⟩ := by
  simp [Aegis.evaluate, Fixtures.denyRule2, Fixtures.podCtx, Fixtures.podSelector,
    Fixtures.podResource, Fixtures.vTrue, Aegis.selectorMatches, Aegis.resourceKind,
    Aegis.lookupEntry, Aegis.substitute, Aegis.patternMatches, Aegis.EvaluationContext.tree]

/-- C1: the Policy Aggregator evaluates every rule of a policy in declaration
order and collects all deny results without short-circuiting: the collected
`ruleResults` are the order-preserving sublist of the rule-wise evaluations,
and every rule whose evaluation denies contributes its result. -/
theorem policy_aggregator_collects_all_denials
    (p : Aegis.PolicyDocument) (ctx : Aegis.EvaluationContext)
    (verify : String → String → Bool) :
    List.Sublist (Aegis.evaluatePolicy p ctx verify).ruleResults
      (p.rules.map (fun r => Aegis.evaluate p.mode r ctx verify)) ∧
    (∀ r ∈ p.rules, (Aegis.evaluate p.mode r ctx verify).outcome = .deny →
      Aegis.evaluate p.mode r ctx verify ∈
        (Aegis.evaluatePolicy p ctx verify).ruleResults) := by
  constructor
  · simp only [Aegis.evaluatePolicy]
    exact List.filter_sublist _
  · intro r hr hd
    simp only [Aegis.evaluatePolicy]
    exact List.mem_filter.mpr ⟨List.mem_map_of_mem _ hr, by simp [hd]⟩

/-- Witness for `policy_aggregator_collects_all_denials`: a policy with two
always-denying rules reports both denials in its `ruleResults`. -/
theorem policy_aggregator_collects_all_denials_witness :
    Aegis.evaluate Fixtures.twoDenyPolicy.mode Fixtures.denyRule1 Fixtures.podCtx Fixtures.vTrue ∈
      (Aegis.evaluatePolicy Fixtures.twoDenyPolicy Fixtures.podCtx Fixtures.vTrue).ruleResults ∧
    Aegis.evaluate Fixtures.twoDenyPolicy.mode Fixtures.denyRule2 Fixtures.podCtx Fixtures.vTrue ∈
      (Aegis.evaluatePolicy Fixtures.twoDenyPolicy Fixtures.podCtx Fixtures.vTrue).ruleResults :=
  ⟨(policy_aggregator_collects_all_denials Fixtures.twoDenyPolicy Fixtures.podCtx
      Fixtures.vTrue).2 Fixtures.denyRule1 (List.mem_cons_self _ _)
      (by simp [Fixtures.twoDenyPolicy, eval_denyRule1_enforce]),
   (policy_aggregator_collects_all_denials Fixtures.twoDenyPolicy Fixtures.podCtx
      Fixtures.vTrue).2 Fixtures.denyRule2
      (List.mem_cons_of_mem _ (List.mem_cons_self _ _))
      (by simp [Fixtures.twoDenyPolicy, eval_denyRule2_enforce])⟩

/-- C2: the aggregate admission outcome is allowed iff no enforce-mode policy
produced a deny; appending an audit-mode policy never changes `allowed`; an
enforce-mode policy in the list whose evaluation denies forces
`allowed = false`; and a policy's outcome is a deny iff some of its rules
evaluates to a deny. -/
theorem enforcement_mode_semantics
    (policies : List Aegis.PolicyDocument) (ctx : Aegis.EvaluationContext)
    (verify : String → String → Bool) :
    ((Aegis.evaluateAll policies ctx verify).allowed = true ↔
      ∀ p ∈ policies, p.mode = .enforce →
        (Aegis.evaluatePolicy p ctx verify).outcome ≠ .deny) ∧
    (∀ p : Aegis.PolicyDocument, p.mode = .audit →
      (Aegis.evaluateAll (policies ++ [p]) ctx verify).allowed =
        (Aegis.evaluateAll policies ctx verify).allowed) ∧
    (∀ p ∈ policies, p.mode = .enforce →
      (Aegis.evaluatePolicy p ctx verify).outcome = .deny →
      (Aegis.evaluateAll policies ctx verify).allowed = false) ∧
    (∀ p : Aegis.PolicyDocument,
      ((Aegis.evaluatePolicy p ctx verify).outcome = .deny ↔
        ∃ r ∈ p.rules, (Aegis.evaluate p.mode r ctx verify).outcome = .deny)) := by
  have houtcome : ∀ p : Aegis.PolicyDocument,
      ((Aegis.evaluatePolicy p ctx verify).outcome = .deny ↔
        ∃ r ∈ p.rules, (Aegis.evaluate p.mode r ctx verify).outcome = .deny) := by
    intro p
    simp only [Aegis.evaluatePolicy]
    by_cases hnil :
        (p.rules.map (fun r => Aegis.evaluate p.mode r ctx verify)).filter
          (fun rr => decide (rr.outcome = .deny)) = []
    · simp only [hnil, List.isEmpty_nil, if_true]
      constructor
      · intro h
        exact absurd h (by decide)
      · rintro ⟨r, hr, hd⟩
        have : Aegis.evaluate p.mode r ctx verify ∈
            (p.rules.map (fun r => Aegis.evaluate p.mode r ctx verify)).filter
              (fun rr => decide (rr.outcome = .deny)) :=
          List.mem_filter.mpr ⟨List.mem_map_of_mem _ hr, by simp [hd]⟩
        rw [hnil] at this
        exact absurd this (List.not_mem_nil _)
    · have hne : ((p.rules.map (fun r => Aegis.evaluate p.mode r ctx verify)).filter
          (fun rr => decide (rr.outcome = .deny))).isEmpty = false := by
        cases hl : (p.rules.map (fun r => Aegis.evaluate p.mode r ctx verify)).filter
            (fun rr => decide (rr.outcome = .deny)) with
        | nil => exact absurd hl hnil
        | cons a l => rfl
      simp only [hne, Bool.false_eq_true, if_false]
      constructor
      · intro _
        obtain ⟨x, hx⟩ := List.exists_mem_of_ne_nil _ hnil
        have hx₂ := List.mem_filter.mp hx
        obtain ⟨r, hr, hfr⟩ := List.mem_map.mp hx₂.1
        exact ⟨r, hr, by rw [hfr]; exact of_decide_eq_true hx₂.2⟩
      · intro _
        trivial
  have hiff : (Aegis.evaluateAll policies ctx verify).allowed = true ↔
      ∀ p ∈ policies, p.mode = .enforce →
        (Aegis.evaluatePolicy p ctx verify).outcome ≠ .deny := by
    simp [Aegis.evaluateAll, List.any_eq_true, not_and]
  refine ⟨hiff, ?_, ?_, houtcome⟩
  · intro p hp
    simp [Aegis.evaluateAll, List.any_append, hp]
  · intro p hp hmode hdeny
    cases hall : (Aegis.evaluateAll policies ctx verify).allowed with
    | false => rfl
    | true => exact absurd hdeny (hiff.mp hall p hp hmode)

/-- Witness for `enforcement_mode_semantics`: an audit-mode policy whose rule
denies leaves the outcome allowed, while the same rule under an enforce-mode
policy blocks. -/
theorem enforcement_mode_semantics_witness :
    (Aegis.evaluateAll [Fixtures.auditPolicy] Fixtures.podCtx Fixtures.vTrue).allowed = true ∧
    (Aegis.evaluatePolicy Fixtures.auditPolicy Fixtures.podCtx Fixtures.vTrue).outcome = .deny ∧
    (Aegis.evaluateAll [Fixtures.enforcePolicy] Fixtures.podCtx Fixtures.vTrue).allowed = false :=
  ⟨(enforcement_mode_semantics [Fixtures.auditPolicy] Fixtures.podCtx Fixtures.vTrue).1.mpr
    (fun p hp hmode => by
      rw [List.mem_singleton] at hp
      subst hp
      exact absurd hmode (by decide)),
   (enforcement_mode_semantics [Fixtures.auditPolicy] Fixtures.podCtx
      Fixtures.vTrue).2.2.2 Fixtures.auditPolicy |>.mpr
    ⟨Fixtures.denyRule1, List.mem_cons_self _ _,
      by simp [Fixtures.auditPolicy, eval_denyRule1_audit]⟩,
   (enforcement_mode_semantics [Fixtures.enforcePolicy] Fixtures.podCtx
      Fixtures.vTrue).2.2.1 Fixtures.enforcePolicy (List.mem_cons_self _ _) rfl
    ((enforcement_mode_semantics [Fixtures.enforcePolicy] Fixtures.podCtx
        Fixtures.vTrue).2.2.2 Fixtures.enforcePolicy |>.mpr
      ⟨Fixtures.denyRule1, List.mem_cons_self _ _,
        by simp [Fixtures.enforcePolicy, eval_denyRule1_enforce]⟩)⟩

/-- Resolution of a concatenated path is resolution of the first part
followed by resolution of the rest from the intermediate value. -/
theorem resolveAux_append (p q : List Aegis.Seg) (v : Aegis.Value) :
    Aegis.resolveAux (p ++ q) v = (Aegis.resolveAux p v).bind (Aegis.resolveAux q) := by
  induction p generalizing v with
  | nil => rfl
  | cons s rest ih =>
    simp only [List.cons_append, Aegis.resolveAux]
    cases Aegis.segStep s v with
    | none => rfl
    | some w => exact ih w

/-- C4: variable resolution is all-or-nothing — every call either resolves
the full path to a value or fails with a `ResolutionError` carrying the
path; it fails whenever any segment along the path fails to resolve, where a
segment fails on a missing mapping key, on an out-of-bounds sequence index,
and on any segment applied to a scalar. -/
theorem resolve_all_or_nothing (ctx : Aegis.Value) :
    (∀ p : List Aegis.Seg,
      (∃ v, Aegis.resolve p ctx = .ok v ∧ Aegis.resolveAux p ctx = some v) ∨
        Aegis.resolve p ctx = .error ⟨p⟩) ∧
    (∀ (pre post : List Aegis.Seg) (s : Aegis.Seg) (w : Aegis.Value),
      Aegis.resolveAux pre ctx = some w → Aegis.segStep s w = none →
      Aegis.resolve (pre ++ s :: post) ctx = .error ⟨pre ++ s :: post⟩) ∧
    (∀ (i : Nat) (items : List Aegis.Value), items.length ≤ i →
      Aegis.segStep (.idx i) (.sequence items) = none) ∧
    (∀ (s : Aegis.Seg) (v : Aegis.Value), Aegis.shapeClass v = .scalar →
      Aegis.segStep s v = none) ∧
    (∀ (k : String) (entries : List (String × Aegis.Value)),
      Aegis.lookupEntry entries k = none →
      Aegis.segStep (.key k) (.mapping entries) = none) := by
  refine ⟨?_, ?_, ?_, ?_, ?_⟩
  · intro p
    cases hr : Aegis.resolveAux p ctx with
    | some v =>
      refine Or.inl ⟨v, ?_, rfl⟩
      unfold Aegis.resolve
      rw [hr]
    | none => exact Or.inr (by simp [Aegis.resolve, hr])
  · intro pre post s w hpre hstep
    have : Aegis.resolveAux (pre ++ s :: post) ctx = none := by
      rw [resolveAux_append, hpre, Option.some_bind]
      simp only [Aegis.resolveAux, hstep]
    simp [Aegis.resolve, this]
  · intro i items hlen
    simp only [Aegis.segStep]
    exact List.get?_eq_none.mpr hlen
  · intro s v hscalar
    cases s <;> cases v <;> first
      | rfl
      | simp [Aegis.shapeClass] at hscalar
  · intro k entries hnone
    simp only [Aegis.segStep]
    exact hnone

/-- Witness for `resolve_all_or_nothing`: in the context `{a: "x"}`, the path
`a.b` fails with a ResolutionError carrying the whole path, because the
second segment indexes into a scalar. -/
theorem resolve_all_or_nothing_witness :
    Aegis.resolve [.key "a", .key "b"] (.mapping [("a", .str "x")]) =
      .error ⟨[.key "a", .key "b"]⟩ :=
  (resolve_all_or_nothing (.mapping [("a", .str "x")])).2.1 [.key "a"] [] (.key "b")
    (.str "x") rfl rfl

/-- C5: a rule whose MatchSelector is not satisfied by the resource evaluates
to `not-applicable` with reason `no-match`, so it contributes neither an
allow nor a deny, and its result never appears in any policy's collected
denial list. -/
theorem selector_no_match_not_applicable
    (mode : Aegis.EnforcementMode) (rule : Aegis.Rule) (ctx : Aegis.EvaluationContext)
    (verify : String → String → Bool)
    (h : Aegis.selectorMatches rule.selector ctx.resource = false) :
    Aegis.evaluate mode rule ctx verify = ⟨rule.name, false, .notApplicable, "no-match"⟩ ∧
    (Aegis.evaluate mode rule ctx verify).outcome ≠ .allow ∧
    (Aegis.evaluate mode rule ctx verify).outcome ≠ .deny ∧
    (∀ p : Aegis.PolicyDocument,
      Aegis.evaluate mode rule ctx verify ∉
        (Aegis.evaluatePolicy p ctx verify).ruleResults) := by
  have he : Aegis.evaluate mode rule ctx verify =
      ⟨rule.name, false, .notApplicable, "no-match"⟩ := by
    unfold Aegis.evaluate
    rw [h]
    simp
  refine ⟨he, by rw [he]; simp, by rw [he]; simp, ?_⟩
  intro p hmem
  simp only [Aegis.evaluatePolicy] at hmem
  have := (List.mem_filter.mp hmem).2
  rw [he] at this
  exact absurd (of_decide_eq_true this) (by simp)

/-- Witness for `selector_no_match_not_applicable`: the Pod-only rule on a
Service resource is `not-applicable` with reason `no-match`. -/
theorem selector_no_match_not_applicable_witness :
    Aegis.evaluate .enforce Fixtures.ivRule Fixtures.svcCtx Fixtures.vTrue =
      ⟨"iv", false, .notApplicable, "no-match"⟩ :=
  (selector_no_match_not_applicable .enforce Fixtures.ivRule Fixtures.svcCtx
    Fixtures.vTrue rfl).1

/-- C6: for a rule with an ImageVerificationSpec (once its selector matches),
every container image reference matching the spec's glob is checked through
the injected capability: if all matching references verify the rule allows,
if some matching reference fails verification the rule denies with reason
`unverified-image:<ref>` for a failing reference, and if no reference
matches the glob the rule is vacuously allow. -/
theorem image_verification_rule_semantics
    (mode : Aegis.EnforcementMode) (rule : Aegis.Rule)
    (spec : Aegis.ImageVerificationSpec) (ctx : Aegis.EvaluationContext)
    (verify : String → String → Bool)
    (hbody : rule.body = .imageVerification spec)
    (hsel : Aegis.selectorMatches rule.selector ctx.resource = true) :
    (((Aegis.containerImages ctx.resource).filter
        (fun ref => Aegis.globMatchStr spec.glob ref)) = [] →
      Aegis.evaluate mode rule ctx verify =
        ⟨rule.name, true, .allow, "images-verified"⟩) ∧
    ((∀ ref ∈ (Aegis.containerImages ctx.resource).filter
        (fun ref => Aegis.globMatchStr spec.glob ref), verify ref spec.key = true) →
      Aegis.evaluate mode rule ctx verify =
        ⟨rule.name, true, .allow, "images-verified"⟩) ∧
    ((∃ ref ∈ (Aegis.containerImages ctx.resource).filter
        (fun ref => Aegis.globMatchStr spec.glob ref), verify ref spec.key = false) →
      (Aegis.evaluate mode rule ctx verify).outcome = .deny ∧
      ∃ ref₀ ∈ (Aegis.containerImages ctx.resource).filter
        (fun ref => Aegis.globMatchStr spec.glob ref),
        verify ref₀ spec.key = false ∧
        (Aegis.evaluate mode rule ctx verify).reason = "unverified-image:" ++ ref₀) := by
  have hev : Aegis.evaluate mode rule ctx verify =
      match ((Aegis.containerImages ctx.resource).filter
          (fun ref => Aegis.globMatchStr spec.glob ref)).find?
          (fun ref => !(verify ref spec.key)) with
      | some ref => ⟨rule.name, true, .deny, "unverified-image:" ++ ref⟩
      | none => ⟨rule.name, true, .allow, "images-verified"⟩ := by
    unfold Aegis.evaluate
    rw [hsel, hbody]
    simp
  refine ⟨?_, ?_, ?_⟩
  · intro hnil
    rw [hev, hnil]
    rfl
  · intro hall
    have hfind : ((Aegis.containerImages ctx.resource).filter
        (fun ref => Aegis.globMatchStr spec.glob ref)).find?
        (fun ref => !(verify ref spec.key)) = none :=
      List.find?_eq_none.mpr (fun x hx => by simp [hall x hx])
    rw [hev, hfind]
  · rintro ⟨ref, href, hfail⟩
    cases hf : ((Aegis.containerImages ctx.resource).filter
        (fun ref => Aegis.globMatchStr spec.glob ref)).find?
        (fun ref => !(verify ref spec.key)) with
    | none =>
      exact absurd (by simp [hfail]) (List.find?_eq_none.mp hf ref href)
    | some r₀ =>
      refine ⟨by rw [hev, hf], r₀, List.mem_of_find?_eq_some hf, ?_, by rw [hev, hf]⟩
      have := List.find?_some hf
      simpa using this

/-- Witness for `image_verification_rule_semantics`: on a Pod with no
containers no reference matches, so the rule is vacuously allow; on a Pod
with one image and a rejecting capability, the rule denies. -/
theorem image_verification_rule_semantics_witness :
    Aegis.evaluate .enforce Fixtures.ivRule Fixtures.podCtx Fixtures.vTrue =
      ⟨"iv", true, .allow, "images-verified"⟩ ∧
    (Aegis.evaluate .enforce Fixtures.ivRule Fixtures.podImageCtx
      (fun _ _ => false)).outcome = .deny :=
  ⟨(image_verification_rule_semantics .enforce Fixtures.ivRule ⟨"*", "cosign-key"⟩
      Fixtures.podCtx Fixtures.vTrue rfl rfl).1 rfl,
   ((image_verification_rule_semantics .enforce Fixtures.ivRule ⟨"*", "cosign-key"⟩
      Fixtures.podImageCtx (fun _ _ => false) rfl rfl).2.2
    ⟨"app:1", by
      simp [Fixtures.podImageCtx, Fixtures.podImageResource, Aegis.containerImages,
        Aegis.resolveAux, Aegis.segStep, Aegis.lookupEntry, Aegis.globMatchStr,
        Aegis.globMatch], rfl⟩).1⟩
